import Mathlib

/-!
Shallow embedding of `src/martingale.py`.

Money amounts, bets and probabilities are modelled as rationals.  The
`np.random.random()` draw sequence is an explicit function `stream : ℕ → ℚ`
giving the uniform draw consumed at each spin; a genuine random stream
satisfies `0 ≤ stream i < 1` for every `i`.  The `while` loops are modelled
with explicit fuel: running the loop with fuel `n` executes at most `n`
iterations, and "the trial terminates within `n` iterations" is expressed
as "after running with fuel `n` the loop guard is false at the resulting
state".

The Python local `reached_target` in `iterate_martingale` is assigned only
inside the loop body, yet is read by the `return` statement; when the loop
body never runs, CPython raises `UnboundLocalError` at `return`.  We model
that local as `Option ℤ`, initialised to `none`; a `none` result of
`iterate_martingale` models the `UnboundLocalError`.

The fields `bets` and `wins` of `IterState` are ghost instrumentation
recording the stake in effect at each executed iteration and whether that
spin was won; no non-ghost field depends on them.  The `verbose` printing
and plotting branches are I/O only and are not modelled (all claims go
through the `verbose=False` data path used by `simulate_martingales`).
-/

namespace Martingale

/-- `play_roulette` (lines 5-18): `outcome = 1 if np.random.random() < win_probability
else -1`; `winnings = bet * outcome`.  The consumed uniform draw is `r`. -/
def play_roulette (bet win_probability r : ℚ) : ℚ :=
  bet * (if r < win_probability then 1 else -1)

/-- Loop state of `iterate_martingale` (lines 74-97): the mutable locals
`bankroll`, `bet`, `winnings`, `gain`, `bankroll_log`, `reached_target`
(the last as `Option` since it may be unassigned), plus the ghost history
fields `bets` and `wins`. -/
structure IterState where
  bankroll : ℚ
  bet : ℚ
  winnings : ℚ
  gain : ℚ
  bankroll_log : List ℚ
  reached_target : Option ℤ
  bets : List ℚ
  wins : List Bool

/-- The `while` guard of `iterate_martingale` (line 78):
`bankroll >= bet and bet <= max_bet and gain < target`. -/
def iterGuard (max_bet target : ℚ) (s : IterState) : Prop :=
  s.bankroll ≥ s.bet ∧ s.bet ≤ max_bet ∧ s.gain < target

instance (max_bet target : ℚ) (s : IterState) : Decidable (iterGuard max_bet target s) :=
  inferInstanceAs (Decidable (s.bankroll ≥ s.bet ∧ s.bet ≤ max_bet ∧ s.gain < target))

/-- One iteration of the `while` body of `iterate_martingale` (lines 79-97):
draw, update bankroll, append to the log, recompute `gain = log[-1] - log[0]`,
double the bet on a loss or reset it to `min_bet`, and assign `reached_target`.
The ghost fields record the stake placed and the win/loss outcome. -/
def iterStep (target min_bet win_probability r : ℚ) (s : IterState) : IterState :=
  let winnings := play_roulette s.bet win_probability r
  let bankroll := s.bankroll + winnings
  let bankroll_log := s.bankroll_log ++ [bankroll]
  let gain := bankroll_log.getLastD 0 - bankroll_log.headD 0
  let bet := if winnings < 0 then s.bet * 2 else min_bet
  let reached_target : Option ℤ := if gain ≥ target then some 1 else some 0
  { bankroll := bankroll, bet := bet, winnings := winnings, gain := gain,
    bankroll_log := bankroll_log, reached_target := reached_target,
    bets := s.bets ++ [s.bet], wins := s.wins ++ [decide (r < win_probability)] }

/-- The `while` loop of `iterate_martingale` with fuel (first `ℕ` argument)
and current spin index (second `ℕ` argument, selecting the next draw). -/
def iterLoop (target min_bet max_bet win_probability : ℚ) (stream : ℕ → ℚ) :
    ℕ → ℕ → IterState → IterState
  | 0, _, s => s
  | n + 1, i, s =>
    if iterGuard max_bet target s then
      iterLoop target min_bet max_bet win_probability stream n (i + 1)
        (iterStep target min_bet win_probability (stream i) s)
    else s

/-- The state of `iterate_martingale` just before the loop (lines 74-77):
`bankroll_log = [bankroll]`, `bet = min_bet`, `winnings = 0`, `gain = 0`,
`reached_target` unassigned. -/
def iterInit (bankroll min_bet : ℚ) : IterState :=
  { bankroll := bankroll, bet := min_bet, winnings := 0, gain := 0,
    bankroll_log := [bankroll], reached_target := none, bets := [], wins := [] }

/-- The state of `iterate_martingale` after the loop has run with the given fuel. -/
def iterRun (fuel : ℕ) (bankroll target min_bet max_bet win_probability : ℚ)
    (stream : ℕ → ℚ) : IterState :=
  iterLoop target min_bet max_bet win_probability stream fuel 0 (iterInit bankroll min_bet)

/-- `iterate_martingale` (lines 57-106) on the `verbose=False` path: the
function returns the bare local `reached_target` (line 106); `none` models
the `UnboundLocalError` raised when the loop body never executed. -/
def iterate_martingale (fuel : ℕ) (bankroll target min_bet max_bet win_probability : ℚ)
    (stream : ℕ → ℚ) : Option ℤ :=
  (iterRun fuel bankroll target min_bet max_bet win_probability stream).reached_target

/-- Loop state of `play_martingale` (lines 39-54). -/
structure PlayState where
  bankroll : ℚ
  bet : ℚ
  winnings : ℚ
  bankroll_log : List ℚ

/-- The `while` guard of `play_martingale` (line 42):
`bankroll >= bet and bet <= max_bet and winnings <= 0`. -/
def playGuard (max_bet : ℚ) (s : PlayState) : Prop :=
  s.bankroll ≥ s.bet ∧ s.bet ≤ max_bet ∧ s.winnings ≤ 0

instance (max_bet : ℚ) (s : PlayState) : Decidable (playGuard max_bet s) :=
  inferInstanceAs (Decidable (s.bankroll ≥ s.bet ∧ s.bet ≤ max_bet ∧ s.winnings ≤ 0))

/-- One iteration of the `while` body of `play_martingale` (lines 43-53):
draw, update bankroll, append to the log, then double the bet
unconditionally (line 46).  The local `outcome` is only ever assigned,
never read, so it is not modelled. -/
def playStep (win_probability r : ℚ) (s : PlayState) : PlayState :=
  let winnings := play_roulette s.bet win_probability r
  let bankroll := s.bankroll + winnings
  { bankroll := bankroll, bet := s.bet * 2, winnings := winnings,
    bankroll_log := s.bankroll_log ++ [bankroll] }

/-- The `while` loop of `play_martingale` with fuel and spin index. -/
def playLoop (max_bet win_probability : ℚ) (stream : ℕ → ℚ) :
    ℕ → ℕ → PlayState → PlayState
  | 0, _, s => s
  | n + 1, i, s =>
    if playGuard max_bet s then
      playLoop max_bet win_probability stream n (i + 1)
        (playStep win_probability (stream i) s)
    else s

/-- The state of `play_martingale` just before the loop (lines 39-41). -/
def playInit (bankroll min_bet : ℚ) : PlayState :=
  { bankroll := bankroll, bet := min_bet, winnings := 0, bankroll_log := [bankroll] }

/-- `play_martingale` (lines 21-54): returns `bankroll_log` (line 54). -/
def play_martingale (fuel : ℕ) (bankroll min_bet max_bet win_probability : ℚ)
    (stream : ℕ → ℚ) : List ℚ :=
  (playLoop max_bet win_probability stream fuel 0 (playInit bankroll min_bet)).bankroll_log

/-- The accumulation loop of `simulate_martingales` (lines 122-124):
`wins = wins + iterate_martingale(...)` over trials `0, …, n-1`, each trial
consuming its own draw stream `streams k`.  A `none` from any trial
(the `UnboundLocalError`) aborts the whole computation, modelling the
uncaught exception propagating out of `simulate_martingales`. -/
def sumFlags (fuel : ℕ) (bankroll target min_bet max_bet win_probability : ℚ)
    (streams : ℕ → ℕ → ℚ) : ℕ → Option ℤ
  | 0 => some 0
  | n + 1 =>
    match sumFlags fuel bankroll target min_bet max_bet win_probability streams n,
      iterate_martingale fuel bankroll target min_bet max_bet win_probability (streams n) with
    | some w, some f => some (w + f)
    | _, _ => none

/-- `simulate_martingales` (lines 109-127): 1000 trials, then
`win_pct = wins*1.0/1000` (line 126); `none` models a trial raising. -/
def simulate_martingales (fuel : ℕ) (bankroll target min_bet max_bet win_probability : ℚ)
    (streams : ℕ → ℕ → ℚ) : Option ℚ :=
  (sumFlags fuel bankroll target min_bet max_bet win_probability streams 1000).map
    (fun wins : ℤ => (wins : ℚ) / 1000)

/-- Auxiliary invariant for all-loss runs of `iterate_martingale`
(`win_probability = 0`): the bet is positive, the gain is still below the
target, the last assignment to `reached_target` was `0`, and the log's
first and last entries track the initial and current bankroll. -/
def LossInv (init target : ℚ) (s : IterState) : Prop :=
  0 < s.bet ∧ s.gain < target ∧ s.reached_target = some 0 ∧
    s.bankroll_log ≠ [] ∧ s.bankroll_log.headD 0 = init ∧
    s.bankroll_log.getLastD 0 = s.bankroll ∧ s.gain = s.bankroll - init

/-- Auxiliary invariant of `iterate_martingale`: the log starts at the
initial bankroll, ends at the current bankroll, has one more entry than the
number of executed iterations, and each consecutive difference is the
ghost-recorded stake of that iteration, signed by the ghost-recorded
outcome. -/
def LogInv (init : ℚ) (s : IterState) : Prop :=
  s.bankroll_log.headD 0 = init ∧
    s.bankroll_log.length = s.bets.length + 1 ∧
    s.wins.length = s.bets.length ∧
    s.bankroll_log.getD s.bets.length 0 = s.bankroll ∧
    ∀ i, i < s.bets.length →
      s.bankroll_log.getD (i + 1) 0 - s.bankroll_log.getD i 0 =
        (if s.wins.getD i false then s.bets.getD i 0 else -(s.bets.getD i 0))

theorem iterStep_bet (target min_bet p r : ℚ) (s : IterState) :
    (iterStep target min_bet p r s).bet =
      if play_roulette s.bet p r < 0 then s.bet * 2 else min_bet := rfl

theorem iterStep_bankroll (target min_bet p r : ℚ) (s : IterState) :
    (iterStep target min_bet p r s).bankroll = s.bankroll + play_roulette s.bet p r := rfl

theorem iterStep_log (target min_bet p r : ℚ) (s : IterState) :
    (iterStep target min_bet p r s).bankroll_log =
      s.bankroll_log ++ [s.bankroll + play_roulette s.bet p r] := rfl

theorem iterStep_gain (target min_bet p r : ℚ) (s : IterState) :
    (iterStep target min_bet p r s).gain =
      (s.bankroll_log ++ [s.bankroll + play_roulette s.bet p r]).getLastD 0 -
        (s.bankroll_log ++ [s.bankroll + play_roulette s.bet p r]).headD 0 := rfl

theorem iterStep_reached (target min_bet p r : ℚ) (s : IterState) :
    (iterStep target min_bet p r s).reached_target =
      if (s.bankroll_log ++ [s.bankroll + play_roulette s.bet p r]).getLastD 0 -
          (s.bankroll_log ++ [s.bankroll + play_roulette s.bet p r]).headD 0 ≥ target
        then some 1 else some 0 := rfl

theorem iterStep_bets (target min_bet p r : ℚ) (s : IterState) :
    (iterStep target min_bet p r s).bets = s.bets ++ [s.bet] := rfl

theorem iterStep_wins (target min_bet p r : ℚ) (s : IterState) :
    (iterStep target min_bet p r s).wins = s.wins ++ [decide (r < p)] := rfl

theorem headD_append_of_ne_nil {l : List ℚ} (l2 : List ℚ) (h : l ≠ []) (d : ℚ) :
    (l ++ l2).headD d = l.headD d := by
  cases l with
  | nil => exact absurd rfl h
  | cons a t => rfl

theorem getD_concat_length (l : List ℚ) (a d : ℚ) : (l ++ [a]).getD l.length d = a := by
  rw [List.getD_eq_getElem?_getD, List.getElem?_append_right (le_refl l.length)]
  simp

/-- With `win_probability = 0` and a nonnegative draw, a spin always loses
its stake. -/
theorem play_roulette_zero (bet r : ℚ) (hr : 0 ≤ r) :
    play_roulette bet 0 r = -bet := by
  rw [play_roulette, if_neg (not_lt.mpr hr)]
  ring

/-- With all spins lost, the bet doubles every iteration: after running
with fuel `n`, either the guard is already false, or the bet has been
multiplied by `2 ^ n`. -/
theorem iterLoop_loss_bet (target min_bet max_bet : ℚ) (stream : ℕ → ℚ)
    (hs : ∀ j, 0 ≤ stream j) :
    ∀ (n i : ℕ) (s : IterState), 0 < s.bet →
      ¬ iterGuard max_bet target (iterLoop target min_bet max_bet 0 stream n i s) ∨
        (iterLoop target min_bet max_bet 0 stream n i s).bet = s.bet * 2 ^ n := by
  intro n
  induction n with
  | zero =>
    intro i s hb
    right
    simp [iterLoop]
  | succ n ih =>
    intro i s hb
    by_cases hg : iterGuard max_bet target s
    · rw [iterLoop, if_pos hg]
      have hw : play_roulette s.bet 0 (stream i) = -s.bet := play_roulette_zero _ _ (hs i)
      have hbet : (iterStep target min_bet 0 (stream i) s).bet = s.bet * 2 := by
        rw [iterStep_bet, hw, if_pos (by linarith)]
      rcases ih (i + 1) (iterStep target min_bet 0 (stream i) s) (by rw [hbet]; linarith)
        with h | h
      · exact Or.inl h
      · right
        rw [h, hbet]
        ring
    · rw [iterLoop, if_neg hg]
      exact Or.inl hg

/-- With all spins lost and a bet that `2 ^ n`-fold exceeds the table
limit, the loop has terminated after running with fuel `n`. -/
theorem iterLoop_loss_stops (target min_bet max_bet : ℚ) (stream : ℕ → ℚ)
    (hs : ∀ j, 0 ≤ stream j) (n i : ℕ) (s : IterState) (hb : 0 < s.bet)
    (hgt : max_bet < s.bet * 2 ^ n) :
    ¬ iterGuard max_bet target (iterLoop target min_bet max_bet 0 stream n i s) := by
  rcases iterLoop_loss_bet target min_bet max_bet stream hs n i s hb with h | h
  · exact h
  · intro hg
    have := hg.2.1
    rw [h] at this
    linarith

/-- The claimed iteration budget always suffices to push the bet past the
table limit: `max_bet < min_bet * 2 ^ (clog2(max_bet / min_bet) + 2)`
whenever `0 < min_bet`. -/
theorem bet_pow_clog_gt (m M : ℚ) (hm : 0 < m) :
    M < m * 2 ^ ((Int.clog 2 (M / m)).toNat + 2) := by
  by_cases h : 1 ≤ M / m
  · have hc : (0 : ℤ) ≤ Int.clog 2 (M / m) := by
      rw [Int.clog_of_one_le_right _ h]
      exact_mod_cast Nat.zero_le _
    have h1 : M / m ≤ (2 : ℚ) ^ (Int.clog 2 (M / m)) :=
      Int.self_le_zpow_clog one_lt_two _
    have h2 : ((2 : ℚ) : ℚ) ^ (Int.clog 2 (M / m)) =
        2 ^ (Int.clog 2 (M / m)).toNat := by
      rw [← zpow_natCast, Int.toNat_of_nonneg hc]
    have h3 : M ≤ m * 2 ^ (Int.clog 2 (M / m)).toNat := by
      have hd : M / m ≤ 2 ^ (Int.clog 2 (M / m)).toNat := by
        calc M / m ≤ (2 : ℚ) ^ (Int.clog 2 (M / m)) := h1
          _ = 2 ^ (Int.clog 2 (M / m)).toNat := h2
      have := (div_le_iff₀ hm).mp hd
      linarith
    have h4 : (0 : ℚ) < m * 2 ^ (Int.clog 2 (M / m)).toNat := by positivity
    have h5 : m * 2 ^ ((Int.clog 2 (M / m)).toNat + 2) =
        m * 2 ^ (Int.clog 2 (M / m)).toNat * 4 := by
      rw [pow_add]
      ring
    linarith
  · push_neg at h
    have hM : M < m := (div_lt_one hm).mp h
    have h1 : (1 : ℚ) ≤ 2 ^ ((Int.clog 2 (M / m)).toNat + 2) := by
      calc (1 : ℚ) = 2 ^ 0 := by norm_num
        _ ≤ 2 ^ ((Int.clog 2 (M / m)).toNat + 2) :=
          pow_le_pow_right₀ one_le_two (Nat.zero_le _)
    nlinarith

/-- C1: the claim says `run_trial` returns the pair
`(reached_target, bankroll_log)`.  The code (line 106) returns only the
bare `reached_target` flag — here, at a winning input, the whole return
value of `iterate_martingale` is the flag `some 1`, with no log component
(the function's own docstring instead promises `bankroll_log`). -/
theorem claim_C1_returns_bare_flag :
    iterate_martingale 2 100 5 5 500 (1/2) (fun _ => 0) = some 1 := by
  norm_num [iterate_martingale, iterRun, iterLoop, iterStep, iterInit, iterGuard, play_roulette]

/-- C2: the claim says `target <= 0` returns success immediately with a log
of length 1.  The code instead raises `UnboundLocalError`: with `target = 0`
the guard `gain < target` is false at once, the loop body never assigns
`reached_target`, and `return reached_target` (line 106) fails — modelled
by the `none` result. -/
theorem claim_C2_target_zero_raises :
    iterate_martingale 5 1000 0 5 500 (1/2) (fun _ => 0) = none := by
  norm_num [iterate_martingale, iterRun, iterLoop, iterStep, iterInit, iterGuard, play_roulette]

/-- C3: the claim says `min_bet > initial_bankroll` returns
`([initial_bankroll], 0)`.  The code instead raises `UnboundLocalError`:
the guard `bankroll >= bet` fails on the first check, the loop body never
assigns `reached_target`, and `return reached_target` fails — modelled by
the `none` result (and no log is returned on any path). -/
theorem claim_C3_small_bankroll_raises :
    iterate_martingale 5 3 5 5 500 (1/2) (fun _ => 0) = none := by
  norm_num [iterate_martingale, iterRun, iterLoop, iterStep, iterInit, iterGuard, play_roulette]

/-- C4 counterexample: the claim says an invalid parameter set surfaces an
`InvalidParameter` error before any simulation step.  With the invalid
`min_bet = -5` (and `win_probability = 0`), the code instead simulates a
spin and returns the normal result `reached_target = 1`: no validation
exists anywhere in `iterate_martingale`. -/
theorem claim_C4_invalid_simulated_cx :
    iterate_martingale 2 10 5 (-5) 500 0 (fun _ => 0) = some 1 := by
  norm_num [iterate_martingale, iterRun, iterLoop, iterStep, iterInit, iterGuard, play_roulette]

/-- C4 amended: `iterate_martingale` performs no parameter validation and
silently simulates invalid parameter sets.  With the invalid
`win_probability = 2`, every spin of every genuine random stream is a win
(every draw is below 2), and the trial runs and returns success rather
than surfacing any error. -/
theorem claim_C4_no_validation (stream : ℕ → ℚ)
    (hs : ∀ i, 0 ≤ stream i ∧ stream i < 1) :
    iterate_martingale 2 100 5 5 500 2 stream = some 1 := by
  have h2 : stream 0 < 2 := (hs 0).2.trans (by norm_num)
  norm_num [iterate_martingale, iterRun, iterLoop, iterStep, iterInit, iterGuard,
    play_roulette, h2]

/-- C4 witness: the amended statement at the all-zero draw stream. -/
theorem claim_C4_no_validation_w :
    iterate_martingale 2 100 5 5 500 2 (fun _ => 0) = some 1 :=
  claim_C4_no_validation (fun _ => 0) (fun _ => by norm_num)

/-- C5 counterexample: the claim says every trial terminates within
`ceil(log2(max_bet/min_bet)) + 2` iterations.  With `min_bet = 5`,
`max_bet = 500` that bound is `9`; but with `win_probability = 1`,
`target = 100` and a winning stream the bet keeps resetting to `min_bet`,
and after `9` iterations the loop guard still holds (gain is only 45), so
the trial has not terminated within the claimed bound. -/
theorem claim_C5_bound_cx :
    (Int.clog 2 ((500 : ℚ) / 5)).toNat + 2 = 9 ∧
      iterGuard 500 100 (iterRun 9 1000 100 5 500 1 (fun _ => 0)) := by
  constructor
  · have h100 : Nat.clog 2 100 = 7 := by
      rw [Nat.clog_of_two_le (by norm_num) (by norm_num)]
      norm_num
      rw [Nat.clog_of_two_le (by norm_num) (by norm_num)]
      norm_num
      rw [Nat.clog_of_two_le (by norm_num) (by norm_num)]
      norm_num
      rw [Nat.clog_of_two_le (by norm_num) (by norm_num)]
      norm_num
      rw [Nat.clog_of_two_le (by norm_num) (by norm_num)]
      norm_num
      rw [Nat.clog_of_two_le (by norm_num) (by norm_num)]
      norm_num
      rw [Nat.clog_of_two_le (by norm_num) (by norm_num)]
      norm_num [Nat.clog_one_right]
    have hdiv : (500 : ℚ) / 5 = 100 := by norm_num
    rw [hdiv, Int.clog_ofNat, h100]
    rfl
  · norm_num [iterRun, iterLoop, iterStep, iterInit, iterGuard, play_roulette]

/-- C5 amended: the claimed bound holds for losing streaks, not whole
trials: for valid parameters (`0 < min_bet`) and a run in which every spin
is lost (`win_probability = 0`, genuine nonnegative draws), the trial
terminates within `ceil(log2(max_bet/min_bet)) + 2` iterations — running
the loop with that much fuel leaves a state where the guard is false. -/
theorem claim_C5_loss_streak_bound (bankroll target min_bet max_bet : ℚ)
    (stream : ℕ → ℚ) (hmin : 0 < min_bet) (hs : ∀ j, 0 ≤ stream j) :
    ¬ iterGuard max_bet target
      (iterRun ((Int.clog 2 (max_bet / min_bet)).toNat + 2)
        bankroll target min_bet max_bet 0 stream) := by
  rw [iterRun]
  exact iterLoop_loss_stops target min_bet max_bet stream hs _ 0
    (iterInit bankroll min_bet) hmin (bet_pow_clog_gt min_bet max_bet hmin)

/-- C5 witness: the amended statement at a concrete all-loss trial. -/
theorem claim_C5_loss_streak_bound_w :
    ¬ iterGuard 500 100
      (iterRun ((Int.clog 2 ((500 : ℚ) / 5)).toNat + 2) 1000 100 5 500 0 (fun _ => 1/2)) :=
  claim_C5_loss_streak_bound 1000 100 5 500 (fun _ => 1/2) (by norm_num)
    (fun _ => by norm_num)

/-- A lost spin preserves the all-loss invariant. -/
theorem iterStep_lossInv (init target min_bet r : ℚ) (hr : 0 ≤ r)
    (s : IterState) (h : LossInv init target s) :
    LossInv init target (iterStep target min_bet 0 r s) := by
  obtain ⟨hb, hg, hrt, hnil, hhead, hlast, hgain⟩ := h
  have hw : play_roulette s.bet 0 r = -s.bet := play_roulette_zero _ _ hr
  have hhead2 : (s.bankroll_log ++ [s.bankroll + -s.bet]).headD 0 = init := by
    rw [headD_append_of_ne_nil _ hnil, hhead]
  have hlast2 : (s.bankroll_log ++ [s.bankroll + -s.bet]).getLastD 0 =
      s.bankroll + -s.bet := List.getLastD_concat _ _ _
  have hgain2 : (iterStep target min_bet 0 r s).gain = s.bankroll - s.bet - init := by
    rw [iterStep_gain, hw, hlast2, hhead2]
    ring
  have hglt : s.bankroll - s.bet - init < target := by
    have : s.bankroll - init < target := by rw [← hgain]; exact hg
    linarith
  refine ⟨?_, ?_, ?_, ?_, ?_, ?_, ?_⟩
  · rw [iterStep_bet, hw, if_pos (by linarith)]
    linarith
  · rw [hgain2]
    exact hglt
  · rw [iterStep_reached, hw, hlast2, hhead2]
    rw [if_neg]
    rw [ge_iff_le, not_le]
    linarith
  · rw [iterStep_log, hw]
    simp
  · rw [iterStep_log, hw]
    exact hhead2
  · rw [iterStep_log, iterStep_bankroll, hw]
    exact hlast2
  · rw [hgain2, iterStep_bankroll, hw]
    ring

/-- The all-loss invariant is preserved by the whole loop. -/
theorem iterLoop_lossInv (init target min_bet max_bet : ℚ) (stream : ℕ → ℚ)
    (hs : ∀ j, 0 ≤ stream j) :
    ∀ (n i : ℕ) (s : IterState), LossInv init target s →
      LossInv init target (iterLoop target min_bet max_bet 0 stream n i s) := by
  intro n
  induction n with
  | zero =>
    intro i s h
    simpa [iterLoop] using h
  | succ n ih =>
    intro i s h
    by_cases hg : iterGuard max_bet target s
    · rw [iterLoop, if_pos hg]
      exact ih _ _ (iterStep_lossInv init target min_bet (stream i) (hs i) s h)
    · rw [iterLoop, if_neg hg]
      exact h

/-- C7 counterexample: the claim says every `win_probability = 0` trial
with otherwise valid parameters returns `reached_target = 0` on every
random stream.  At the in-domain boundary `target = 0` (validity does not
constrain the target) the loop body never runs and the code instead raises
`UnboundLocalError` at `return reached_target`, modelled by `none`. -/
theorem claim_C7_target_boundary_cx :
    iterate_martingale 5 100 0 5 500 0 (fun _ => 0) = none := by
  norm_num [iterate_martingale, iterRun, iterLoop, iterStep, iterInit, iterGuard, play_roulette]

/-- C7 amended: with `win_probability = 0`, otherwise valid parameters, and
enough of them for the loop to run at least once (`min_bet ≤ bankroll`,
`min_bet ≤ max_bet`, `0 < target`), every genuine random stream yields
`reached_target = 0`: the trial terminates within
`ceil(log2(max_bet/min_bet)) + 2` iterations with guard false, gain still
below target (so the exit is never via `gain >= target`), and the loop
exits via the bet-limit guard or the bankroll-exhaustion guard. -/
theorem claim_C7_never_succeeds (bankroll target min_bet max_bet : ℚ)
    (stream : ℕ → ℚ) (hmin : 0 < min_bet) (hmm : min_bet ≤ max_bet)
    (hbr : min_bet ≤ bankroll) (ht : 0 < target) (hs : ∀ j, 0 ≤ stream j) :
    iterate_martingale ((Int.clog 2 (max_bet / min_bet)).toNat + 2)
        bankroll target min_bet max_bet 0 stream = some 0 ∧
      ¬ iterGuard max_bet target
        (iterRun ((Int.clog 2 (max_bet / min_bet)).toNat + 2)
          bankroll target min_bet max_bet 0 stream) ∧
      (iterRun ((Int.clog 2 (max_bet / min_bet)).toNat + 2)
          bankroll target min_bet max_bet 0 stream).gain < target ∧
      (max_bet <
          (iterRun ((Int.clog 2 (max_bet / min_bet)).toNat + 2)
            bankroll target min_bet max_bet 0 stream).bet ∨
        (iterRun ((Int.clog 2 (max_bet / min_bet)).toNat + 2)
            bankroll target min_bet max_bet 0 stream).bankroll <
          (iterRun ((Int.clog 2 (max_bet / min_bet)).toNat + 2)
            bankroll target min_bet max_bet 0 stream).bet) := by
  set c : ℕ := (Int.clog 2 (max_bet / min_bet)).toNat with hc
  have hguard0 : iterGuard max_bet target (iterInit bankroll min_bet) := ⟨hbr, hmm, ht⟩
  have hw0 : play_roulette min_bet 0 (stream 0) = -min_bet :=
    play_roulette_zero _ _ (hs 0)
  have hrun : iterRun (c + 2) bankroll target min_bet max_bet 0 stream =
      iterLoop target min_bet max_bet 0 stream (c + 1) 1
        (iterStep target min_bet 0 (stream 0) (iterInit bankroll min_bet)) := by
    rw [iterRun, show c + 2 = (c + 1) + 1 from rfl, iterLoop, if_pos hguard0]
  have hbet1 : (iterStep target min_bet 0 (stream 0) (iterInit bankroll min_bet)).bet =
      min_bet * 2 := by
    rw [iterStep_bet]
    show (if play_roulette min_bet 0 (stream 0) < 0 then min_bet * 2 else min_bet) = min_bet * 2
    rw [hw0, if_pos (by linarith)]
  have h1 : LossInv bankroll target
      (iterStep target min_bet 0 (stream 0) (iterInit bankroll min_bet)) := by
    refine ⟨?_, ?_, ?_, ?_, ?_, ?_, ?_⟩
    · rw [hbet1]
      linarith
    · show ([bankroll] ++ [bankroll + play_roulette min_bet 0 (stream 0)]).getLastD 0 -
          ([bankroll] ++ [bankroll + play_roulette min_bet 0 (stream 0)]).headD 0 < target
      rw [hw0]
      simp
      linarith
    · show (if ([bankroll] ++ [bankroll + play_roulette min_bet 0 (stream 0)]).getLastD 0 -
            ([bankroll] ++ [bankroll + play_roulette min_bet 0 (stream 0)]).headD 0 ≥ target
          then some 1 else some 0 : Option ℤ) = some 0
      rw [hw0]
      rw [if_neg]
      rw [ge_iff_le, not_le, List.getLastD_concat]
      show bankroll + -min_bet - bankroll < target
      linarith
    · show [bankroll] ++ [bankroll + play_roulette min_bet 0 (stream 0)] ≠ []
      simp
    · show ([bankroll] ++ [bankroll + play_roulette min_bet 0 (stream 0)]).headD 0 = bankroll
      rfl
    · show ([bankroll] ++ [bankroll + play_roulette min_bet 0 (stream 0)]).getLastD 0 =
          bankroll + play_roulette min_bet 0 (stream 0)
      exact List.getLastD_concat _ _ _
    · show ([bankroll] ++ [bankroll + play_roulette min_bet 0 (stream 0)]).getLastD 0 -
          ([bankroll] ++ [bankroll + play_roulette min_bet 0 (stream 0)]).headD 0 =
          bankroll + play_roulette min_bet 0 (stream 0) - bankroll
      rw [List.getLastD_concat]
      rfl
  have h2 : LossInv bankroll target
      (iterLoop target min_bet max_bet 0 stream (c + 1) 1
        (iterStep target min_bet 0 (stream 0) (iterInit bankroll min_bet))) :=
    iterLoop_lossInv bankroll target min_bet max_bet stream hs (c + 1) 1 _ h1
  have hstop : ¬ iterGuard max_bet target
      (iterLoop target min_bet max_bet 0 stream (c + 1) 1
        (iterStep target min_bet 0 (stream 0) (iterInit bankroll min_bet))) := by
    apply iterLoop_loss_stops target min_bet max_bet stream hs (c + 1) 1 _
      (by rw [hbet1]; linarith)
    rw [hbet1]
    have hgt := bet_pow_clog_gt min_bet max_bet hmin
    calc max_bet < min_bet * 2 ^ (c + 2) := by rw [hc]; exact hgt
      _ = min_bet * 2 * 2 ^ (c + 1) := by ring
  refine ⟨?_, ?_, ?_, ?_⟩
  · rw [iterate_martingale, hrun]
    exact h2.2.2.1
  · rw [hrun]
    exact hstop
  · rw [hrun]
    exact h2.2.1
  · rw [hrun]
    rcases not_and_or.mp hstop with hA | hBC
    · exact Or.inr (not_le.mp hA)
    · rcases not_and_or.mp hBC with hB | hC
      · exact Or.inl (not_le.mp hB)
      · exact absurd h2.2.1 hC

/-- C7 witness: the amended statement at a concrete all-loss trial. -/
theorem claim_C7_never_succeeds_w :
    iterate_martingale ((Int.clog 2 ((500 : ℚ) / 5)).toNat + 2)
        100 7 5 500 0 (fun _ => 0) = some 0 ∧
      ¬ iterGuard 500 7
        (iterRun ((Int.clog 2 ((500 : ℚ) / 5)).toNat + 2) 100 7 5 500 0 (fun _ => 0)) ∧
      (iterRun ((Int.clog 2 ((500 : ℚ) / 5)).toNat + 2) 100 7 5 500 0 (fun _ => 0)).gain < 7 ∧
      (500 < (iterRun ((Int.clog 2 ((500 : ℚ) / 5)).toNat + 2) 100 7 5 500 0 (fun _ => 0)).bet ∨
        (iterRun ((Int.clog 2 ((500 : ℚ) / 5)).toNat + 2) 100 7 5 500 0 (fun _ => 0)).bankroll <
          (iterRun ((Int.clog 2 ((500 : ℚ) / 5)).toNat + 2) 100 7 5 500 0 (fun _ => 0)).bet) :=
  claim_C7_never_succeeds 100 7 5 500 (fun _ => 0) (by norm_num) (by norm_num)
    (by norm_num) (by norm_num) (fun _ => by norm_num)

/-- One iteration preserves the log invariant: the appended entry differs
from the previous last entry by exactly the stake, added on a win and
subtracted on a loss. -/
theorem iterStep_logInv (init target min_bet p r : ℚ) (s : IterState)
    (h : LogInv init s) : LogInv init (iterStep target min_bet p r s) := by
  obtain ⟨hhead, hlen, hwlen, hlast, hdiff⟩ := h
  have hnil : s.bankroll_log ≠ [] := by
    intro hn
    rw [hn] at hlen
    simp at hlen
  refine ⟨?_, ?_, ?_, ?_, ?_⟩
  · rw [iterStep_log, headD_append_of_ne_nil _ hnil]
    exact hhead
  · rw [iterStep_log, iterStep_bets]
    simp [hlen]
  · rw [iterStep_wins, iterStep_bets]
    simp [hwlen]
  · have hlen2 : (s.bets ++ [s.bet]).length = s.bankroll_log.length := by
      simp [hlen]
    rw [iterStep_log, iterStep_bets, iterStep_bankroll, hlen2, getD_concat_length]
  · intro i hi
    rw [iterStep_bets] at hi
    simp only [List.length_append, List.length_cons, List.length_nil] at hi
    rw [iterStep_log, iterStep_bets, iterStep_wins]
    rcases Nat.lt_succ_iff_lt_or_eq.mp hi with hiL | hiL
    · have hi1 : i < s.bankroll_log.length := by omega
      have hi2 : i + 1 < s.bankroll_log.length := by omega
      have hi3 : i < s.wins.length := by omega
      rw [List.getD_append _ _ _ _ hi1, List.getD_append _ _ _ _ hi2,
        List.getD_append _ _ _ _ hiL, List.getD_append _ _ _ _ hi3]
      exact hdiff i hiL
    · subst hiL
      have hL : s.bets.length < s.bankroll_log.length := by omega
      have hidx : s.bets.length + 1 = s.bankroll_log.length := by omega
      rw [hidx, getD_concat_length, List.getD_append _ _ _ _ hL, hlast]
      have hbets : (s.bets ++ [s.bet]).getD s.bets.length 0 = s.bet :=
        getD_concat_length s.bets s.bet 0
      rw [hbets]
      have hwins : (s.wins ++ [decide (r < p)]).getD s.wins.length false =
          decide (r < p) := by
        rw [List.getD_eq_getElem?_getD, List.getElem?_append_right (le_refl s.wins.length)]
        simp
      rw [hwlen] at hwins
      rw [hwins]
      by_cases hrp : r < p
      · simp [play_roulette, hrp]
      · simp [play_roulette, hrp]

/-- The log invariant is preserved by the whole loop. -/
theorem iterLoop_logInv (init target min_bet max_bet p : ℚ) (stream : ℕ → ℚ) :
    ∀ (n i : ℕ) (s : IterState), LogInv init s →
      LogInv init (iterLoop target min_bet max_bet p stream n i s) := by
  intro n
  induction n with
  | zero =>
    intro i s h
    simpa [iterLoop] using h
  | succ n ih =>
    intro i s h
    by_cases hg : iterGuard max_bet target s
    · rw [iterLoop, if_pos hg]
      exact ih _ _ (iterStep_logInv init target min_bet p (stream i) s h)
    · rw [iterLoop, if_neg hg]
      exact h

/-- The initial state satisfies the log invariant. -/
theorem iterInit_logInv (bankroll min_bet : ℚ) :
    LogInv bankroll (iterInit bankroll min_bet) := by
  refine ⟨rfl, rfl, rfl, rfl, ?_⟩
  intro i hi
  exact absurd hi (Nat.not_lt_zero i)

/-- C6: for every valid parameter set, every random stream and any fuel,
the trial state of `iterate_martingale` satisfies the log invariant:
`bankroll_log[0] = initial_bankroll`, the log has one entry per executed
spin plus the initial entry, and each consecutive pair of log entries
differs by exactly the bet in effect at that step — added on a win,
subtracted on a loss (`LogInv`, over the ghost-recorded stakes and
outcomes). -/
theorem claim_C6_log_invariant (fuel : ℕ) (bankroll target min_bet max_bet p : ℚ)
    (stream : ℕ → ℚ) (_hmin : 0 < min_bet) (_hmm : min_bet ≤ max_bet)
    (_hp0 : 0 ≤ p) (_hp1 : p ≤ 1) (_hb : 0 ≤ bankroll) :
    LogInv bankroll (iterRun fuel bankroll target min_bet max_bet p stream) :=
  iterLoop_logInv bankroll target min_bet max_bet p stream fuel 0
    (iterInit bankroll min_bet) (iterInit_logInv bankroll min_bet)

/-- C6 witness: the invariant at a concrete trial. -/
theorem claim_C6_log_invariant_w :
    LogInv 100 (iterRun 3 100 10 5 500 (1/2) (fun _ => 0)) :=
  claim_C6_log_invariant 3 100 10 5 500 (1/2) (fun _ => 0) (by norm_num)
    (by norm_num) (by norm_num) (by norm_num) (by norm_num)

/-- After any executed iteration, `reached_target` is `0` or `1`. -/
theorem iterStep_reached_mem (target min_bet p r : ℚ) (s : IterState) :
    (iterStep target min_bet p r s).reached_target = some 0 ∨
      (iterStep target min_bet p r s).reached_target = some 1 := by
  rw [iterStep_reached]
  split
  · exact Or.inr rfl
  · exact Or.inl rfl

/-- Throughout the loop, `reached_target` is unassigned, `0` or `1`. -/
theorem iterLoop_reached_mem (target min_bet max_bet p : ℚ) (stream : ℕ → ℚ) :
    ∀ (n i : ℕ) (s : IterState),
      (s.reached_target = none ∨ s.reached_target = some 0 ∨
        s.reached_target = some 1) →
      ((iterLoop target min_bet max_bet p stream n i s).reached_target = none ∨
        (iterLoop target min_bet max_bet p stream n i s).reached_target = some 0 ∨
        (iterLoop target min_bet max_bet p stream n i s).reached_target = some 1) := by
  intro n
  induction n with
  | zero =>
    intro i s h
    simpa [iterLoop] using h
  | succ n ih =>
    intro i s h
    by_cases hg : iterGuard max_bet target s
    · rw [iterLoop, if_pos hg]
      apply ih
      rcases iterStep_reached_mem target min_bet p (stream i) s with h0 | h1
      · exact Or.inr (Or.inl h0)
      · exact Or.inr (Or.inr h1)
    · rw [iterLoop, if_neg hg]
      exact h

/-- A returned `reached_target` flag is always `0` or `1`. -/
theorem iterate_flag_mem (fuel : ℕ) (bankroll target min_bet max_bet p : ℚ)
    (stream : ℕ → ℚ) (f : ℤ)
    (h : iterate_martingale fuel bankroll target min_bet max_bet p stream = some f) :
    f = 0 ∨ f = 1 := by
  have hm := iterLoop_reached_mem target min_bet max_bet p stream fuel 0
    (iterInit bankroll min_bet) (Or.inl rfl)
  rw [iterate_martingale, iterRun] at h
  rcases hm with h0 | h0 | h0 <;> rw [h0] at h
  · exact absurd h (by simp)
  · left
    exact (Option.some_injective ℤ h).symm
  · right
    exact (Option.some_injective ℤ h).symm

/-- When every trial returns a flag, the accumulated sum is the sum of the
flags. -/
theorem sumFlags_eq_sum (fuel : ℕ) (bankroll target min_bet max_bet p : ℚ)
    (streams : ℕ → ℕ → ℚ) (flag : ℕ → ℤ) :
    ∀ n, (∀ k, k < n →
        iterate_martingale fuel bankroll target min_bet max_bet p (streams k) =
          some (flag k)) →
      sumFlags fuel bankroll target min_bet max_bet p streams n =
        some (∑ k ∈ Finset.range n, flag k) := by
  intro n
  induction n with
  | zero =>
    intro _
    simp [sumFlags]
  | succ n ih =>
    intro h
    rw [sumFlags, ih (fun k hk => h k (by omega)), h n (by omega)]
    simp [Finset.sum_range_succ]

/-- A trial that raises makes the whole accumulation raise. -/
theorem sumFlags_none_of (fuel : ℕ) (bankroll target min_bet max_bet p : ℚ)
    (streams : ℕ → ℕ → ℚ) (k : ℕ)
    (hnone : iterate_martingale fuel bankroll target min_bet max_bet p (streams k) = none) :
    ∀ n, k < n → sumFlags fuel bankroll target min_bet max_bet p streams n = none := by
  intro n
  induction n with
  | zero =>
    intro h
    exact absurd h (by omega)
  | succ n ih =>
    intro hk
    rcases Nat.lt_succ_iff_lt_or_eq.mp hk with h | h
    · rw [sumFlags, ih h]
    · subst h
      rw [sumFlags, hnone]
      cases sumFlags fuel bankroll target min_bet max_bet p streams k <;> rfl

/-- C8 counterexample: the claim says `simulate_martingales` returns a
value in `[0,1]` for every valid parameter set.  At the in-domain boundary
`target = 0` (validity does not constrain the target) every trial raises
`UnboundLocalError`, so the aggregator raises instead of returning —
modelled by the `none` result. -/
theorem claim_C8_crash_cx :
    simulate_martingales 5 100 0 5 500 (1/2) (fun _ _ => 0) = none := by
  have h0 : iterate_martingale 5 100 0 5 500 (1/2) ((fun _ _ => (0 : ℚ)) 0) = none := by
    norm_num [iterate_martingale, iterRun, iterLoop, iterStep, iterInit, iterGuard,
      play_roulette]
  have h1 := sumFlags_none_of 5 100 0 5 500 (1/2) (fun _ _ => 0) 0 h0 1000 (by norm_num)
  rw [simulate_martingales, h1]
  rfl

/-- C8 amended: whenever all 1000 trials complete without raising (each
returning its flag), `simulate_martingales` runs the single-trial simulator
exactly 1000 times with identical parameters, sums the `reached_target`
flags, divides by 1000, and the result lies in `[0,1]`. -/
theorem claim_C8_aggregator (fuel : ℕ) (bankroll target min_bet max_bet p : ℚ)
    (streams : ℕ → ℕ → ℚ) (flag : ℕ → ℤ)
    (h : ∀ k, k < 1000 →
      iterate_martingale fuel bankroll target min_bet max_bet p (streams k) =
        some (flag k)) :
    simulate_martingales fuel bankroll target min_bet max_bet p streams =
        some ((∑ k ∈ Finset.range 1000, (flag k : ℚ)) / 1000) ∧
      0 ≤ (∑ k ∈ Finset.range 1000, (flag k : ℚ)) / 1000 ∧
      (∑ k ∈ Finset.range 1000, (flag k : ℚ)) / 1000 ≤ 1 := by
  have hmem : ∀ k, k < 1000 → flag k = 0 ∨ flag k = 1 := fun k hk =>
    iterate_flag_mem fuel bankroll target min_bet max_bet p (streams k) (flag k) (h k hk)
  have h01 : ∀ k ∈ Finset.range 1000, (0 : ℚ) ≤ (flag k : ℚ) ∧ (flag k : ℚ) ≤ 1 := by
    intro k hk
    rcases hmem k (Finset.mem_range.mp hk) with h0 | h0 <;> rw [h0] <;> norm_num
  refine ⟨?_, ?_, ?_⟩
  · rw [simulate_martingales,
      sumFlags_eq_sum fuel bankroll target min_bet max_bet p streams flag 1000 h]
    have hc : ((∑ k ∈ Finset.range 1000, flag k : ℤ) : ℚ) =
        ∑ k ∈ Finset.range 1000, (flag k : ℚ) := by
      push_cast
      rfl
    show some (((∑ k ∈ Finset.range 1000, flag k : ℤ) : ℚ) / 1000) =
      some ((∑ k ∈ Finset.range 1000, (flag k : ℚ)) / 1000)
    rw [hc]
  · apply div_nonneg _ (by norm_num)
    exact Finset.sum_nonneg fun k hk => (h01 k hk).1
  · rw [div_le_one (by norm_num : (0 : ℚ) < 1000)]
    calc (∑ k ∈ Finset.range 1000, (flag k : ℚ)) ≤ ∑ _k ∈ Finset.range 1000, (1 : ℚ) :=
        Finset.sum_le_sum fun k hk => (h01 k hk).2
      _ = 1000 := by simp

/-- C8 witness: the amended statement at a concrete always-winning setup. -/
theorem claim_C8_aggregator_w :
    simulate_martingales 2 100 5 5 500 1 (fun _ _ => 0) =
        some ((∑ _k ∈ Finset.range 1000, ((1 : ℤ) : ℚ)) / 1000) ∧
      0 ≤ (∑ _k ∈ Finset.range 1000, ((1 : ℤ) : ℚ)) / 1000 ∧
      (∑ _k ∈ Finset.range 1000, ((1 : ℤ) : ℚ)) / 1000 ≤ 1 :=
  claim_C8_aggregator 2 100 5 5 500 1 (fun _ _ => 0) (fun _ => 1)
    (fun _ _ => by
      norm_num [iterate_martingale, iterRun, iterLoop, iterStep, iterInit, iterGuard,
        play_roulette])

/-- C10 counterexample: the claim says the value returned by
`simulate_martingales` is always `wins/1000`.  With `min_bet > bankroll`
every trial raises `UnboundLocalError`, so the aggregator raises and
returns no value at all — modelled by the `none` result. -/
theorem claim_C10_crash_cx :
    simulate_martingales 5 4 5 5 500 (1/2) (fun _ _ => 0) = none := by
  have h0 : iterate_martingale 5 4 5 5 500 (1/2) ((fun _ _ => (0 : ℚ)) 0) = none := by
    norm_num [iterate_martingale, iterRun, iterLoop, iterStep, iterInit, iterGuard,
      play_roulette]
  have h1 := sumFlags_none_of 5 4 5 5 500 (1/2) (fun _ _ => 0) 0 h0 1000 (by norm_num)
  rw [simulate_martingales, h1]
  rfl

/-- C10 amended: whenever all 1000 trials complete without raising,
`simulate_martingales` returns exactly `wins/1000`, where `wins` counts the
trials whose flag is `1`; as `wins ≤ 1000`, the result is an integer
multiple of `1/1000` in `[0,1]`. -/
theorem claim_C10_success_count (fuel : ℕ) (bankroll target min_bet max_bet p : ℚ)
    (streams : ℕ → ℕ → ℚ) (flag : ℕ → ℤ)
    (h : ∀ k, k < 1000 →
      iterate_martingale fuel bankroll target min_bet max_bet p (streams k) =
        some (flag k)) :
    simulate_martingales fuel bankroll target min_bet max_bet p streams =
        some (((((Finset.range 1000).filter (fun k => flag k = 1)).card : ℕ) : ℚ) / 1000) ∧
      (((Finset.range 1000).filter (fun k => flag k = 1)).card : ℕ) ≤ 1000 := by
  have hmem : ∀ k, k < 1000 → flag k = 0 ∨ flag k = 1 := fun k hk =>
    iterate_flag_mem fuel bankroll target min_bet max_bet p (streams k) (flag k) (h k hk)
  have hsum : (∑ k ∈ Finset.range 1000, flag k) =
      ((((Finset.range 1000).filter (fun k => flag k = 1)).card : ℕ) : ℤ) := by
    rw [← Finset.sum_boole]
    apply Finset.sum_congr rfl
    intro k hk
    rcases hmem k (Finset.mem_range.mp hk) with h0 | h0
    · rw [h0, if_neg (by norm_num)]
    · rw [h0, if_pos rfl]
  constructor
  · rw [simulate_martingales,
      sumFlags_eq_sum fuel bankroll target min_bet max_bet p streams flag 1000 h, hsum]
    have hc : ((((((Finset.range 1000).filter (fun k => flag k = 1)).card : ℕ) : ℤ)) : ℚ) =
        ((((Finset.range 1000).filter (fun k => flag k = 1)).card : ℕ) : ℚ) := by
      push_cast
      rfl
    show some ((((((Finset.range 1000).filter (fun k => flag k = 1)).card : ℕ) : ℤ) : ℚ) / 1000) =
      some (((((Finset.range 1000).filter (fun k => flag k = 1)).card : ℕ) : ℚ) / 1000)
    rw [hc]
  · calc ((Finset.range 1000).filter (fun k => flag k = 1)).card ≤
        (Finset.range 1000).card := Finset.card_filter_le _ _
      _ = 1000 := Finset.card_range 1000

/-- C10 witness: the amended statement at a concrete always-losing setup. -/
theorem claim_C10_success_count_w :
    simulate_martingales 5 5 5 5 500 0 (fun _ _ => 0) =
        some (((((Finset.range 1000).filter (fun _k => (0 : ℤ) = 1)).card : ℕ) : ℚ) / 1000) ∧
      (((Finset.range 1000).filter (fun _k => (0 : ℤ) = 1)).card : ℕ) ≤ 1000 :=
  claim_C10_success_count 5 5 5 5 500 0 (fun _ _ => 0) (fun _ => 0)
    (fun _ _ => by
      norm_num [iterate_martingale, iterRun, iterLoop, iterStep, iterInit, iterGuard,
        play_roulette])

/-- If the guard is already false, the `play_martingale` loop does nothing. -/
theorem playLoop_not_guard (max_bet p : ℚ) (stream : ℕ → ℚ) (n i : ℕ) (s : PlayState)
    (h : ¬ playGuard max_bet s) : playLoop max_bet p stream n i s = s := by
  cases n with
  | zero => rfl
  | succ n => rw [playLoop, if_neg h]

/-- In `play_martingale` the bet doubles unconditionally each iteration. -/
theorem playLoop_bet (max_bet p : ℚ) (stream : ℕ → ℚ) :
    ∀ (n i : ℕ) (s : PlayState),
      ¬ playGuard max_bet (playLoop max_bet p stream n i s) ∨
        (playLoop max_bet p stream n i s).bet = s.bet * 2 ^ n := by
  intro n
  induction n with
  | zero =>
    intro i s
    right
    simp [playLoop]
  | succ n ih =>
    intro i s
    by_cases hg : playGuard max_bet s
    · rw [playLoop, if_pos hg]
      rcases ih (i + 1) (playStep p (stream i) s) with h | h
      · exact Or.inl h
      · right
        rw [h]
        show s.bet * 2 * 2 ^ n = s.bet * 2 ^ (n + 1)
        ring
    · rw [playLoop, if_neg hg]
      exact Or.inl hg

/-- Enough doubling pushes the bet past the table limit, so the
`play_martingale` loop has terminated. -/
theorem playLoop_stops (max_bet p : ℚ) (stream : ℕ → ℚ) (n i : ℕ) (s : PlayState)
    (hgt : max_bet < s.bet * 2 ^ n) :
    ¬ playGuard max_bet (playLoop max_bet p stream n i s) := by
  rcases playLoop_bet max_bet p stream n i s with h | h
  · exact h
  · intro hg
    have hle := hg.2.1
    rw [h] at hle
    linarith

/-- The head of the `play_martingale` log is preserved by the loop. -/
theorem playLoop_head (max_bet p : ℚ) (stream : ℕ → ℚ) :
    ∀ (n i : ℕ) (s : PlayState), s.bankroll_log ≠ [] →
      (playLoop max_bet p stream n i s).bankroll_log.headD 0 =
          s.bankroll_log.headD 0 ∧
        (playLoop max_bet p stream n i s).bankroll_log ≠ [] := by
  intro n
  induction n with
  | zero =>
    intro i s h
    exact ⟨rfl, h⟩
  | succ n ih =>
    intro i s h
    by_cases hg : playGuard max_bet s
    · rw [playLoop, if_pos hg]
      have hstep : (playStep p (stream i) s).bankroll_log =
          s.bankroll_log ++ [s.bankroll + play_roulette s.bet p (stream i)] := rfl
      obtain ⟨ih1, ih2⟩ := ih (i + 1) (playStep p (stream i) s)
        (by rw [hstep]; simp)
      refine ⟨?_, ih2⟩
      rw [ih1, hstep, headD_append_of_ne_nil _ h]
    · rw [playLoop, if_neg hg]
      exact ⟨rfl, h⟩

/-- With `min_bet = 0` the loop state is a fixed point up to the growing
log: bet stays `0`, winnings stay `0`, the bankroll never changes. -/
theorem playLoop_zero_bet (n i : ℕ) (l : List ℚ) :
    ∃ l2, playLoop 500 (1/2) (fun _ => 0) n i ⟨10, 0, 0, l⟩ = ⟨10, 0, 0, l2⟩ := by
  induction n generalizing i l with
  | zero => exact ⟨l, rfl⟩
  | succ n ih =>
    have hg : playGuard 500 (⟨10, 0, 0, l⟩ : PlayState) := by
      refine ⟨by norm_num, by norm_num, le_refl 0⟩
    rw [playLoop, if_pos hg]
    have hstep : playStep (1/2) ((fun _ => (0 : ℚ)) i) ⟨10, 0, 0, l⟩ =
        ⟨10, 0, 0, l ++ [10]⟩ := by
      norm_num [playStep, play_roulette]
    rw [hstep]
    exact ih (i + 1) (l ++ [10])

/-- C9 counterexample: the claim says `play_martingale` always terminates,
for every arguments.  With `min_bet = 0` (and `bankroll = 10`,
`max_bet = 500`) the bet stays `0` and every spin returns `0` winnings, so
the loop guard holds after every number of iterations: the loop never
terminates. -/
theorem claim_C9_nontermination_cx :
    ¬ ∃ n : ℕ, ¬ playGuard 500 (playLoop 500 (1/2) (fun _ => 0) n 0 (playInit 10 0)) := by
  rintro ⟨n, hn⟩
  obtain ⟨l2, hl⟩ := playLoop_zero_bet n 0 [10]
  rw [show playInit 10 0 = (⟨10, 0, 0, [10]⟩ : PlayState) from rfl, hl] at hn
  exact hn ⟨by norm_num, by norm_num, le_refl 0⟩

/-- C9 amended: for every arguments with `0 < min_bet` and every stream,
`play_martingale` terminates within `ceil(log2(max_bet/min_bet)) + 2`
iterations (the unconditionally doubling bet passes the table limit), the
returned log starts at the given bankroll, and when `min_bet > bankroll`
or `min_bet > max_bet` the loop performs zero spins and the function
returns `[bankroll]` without raising any error. -/
theorem claim_C9_play_total (bankroll min_bet max_bet p : ℚ) (stream : ℕ → ℚ)
    (hmin : 0 < min_bet) :
    ¬ playGuard max_bet
        (playLoop max_bet p stream ((Int.clog 2 (max_bet / min_bet)).toNat + 2) 0
          (playInit bankroll min_bet)) ∧
      (play_martingale ((Int.clog 2 (max_bet / min_bet)).toNat + 2)
          bankroll min_bet max_bet p stream).headD 0 = bankroll ∧
      (bankroll < min_bet ∨ max_bet < min_bet →
        play_martingale ((Int.clog 2 (max_bet / min_bet)).toNat + 2)
          bankroll min_bet max_bet p stream = [bankroll]) := by
  refine ⟨?_, ?_, ?_⟩
  · exact playLoop_stops max_bet p stream _ 0 (playInit bankroll min_bet)
      (bet_pow_clog_gt min_bet max_bet hmin)
  · rw [play_martingale]
    have hh := playLoop_head max_bet p stream
      ((Int.clog 2 (max_bet / min_bet)).toNat + 2) 0 (playInit bankroll min_bet)
      (by simp [playInit])
    rw [hh.1]
    rfl
  · intro hz
    have hng : ¬ playGuard max_bet (playInit bankroll min_bet) := by
      intro hg
      obtain ⟨h1, h2, _⟩ := hg
      simp only [playInit] at h1 h2
      rcases hz with h | h <;> linarith
    rw [play_martingale, playLoop_not_guard _ _ _ _ _ _ hng]
    rfl

/-- C9 witness: the amended statement at concrete arguments. -/
theorem claim_C9_play_total_w :
    ¬ playGuard 500
        (playLoop 500 (1/2) (fun _ => 0) ((Int.clog 2 ((500 : ℚ) / 5)).toNat + 2) 0
          (playInit 100 5)) ∧
      (play_martingale ((Int.clog 2 ((500 : ℚ) / 5)).toNat + 2)
          100 5 500 (1/2) (fun _ => 0)).headD 0 = 100 ∧
      ((100 : ℚ) < 5 ∨ (500 : ℚ) < 5 →
        play_martingale ((Int.clog 2 ((500 : ℚ) / 5)).toNat + 2)
          100 5 500 (1/2) (fun _ => 0) = [100]) :=
  claim_C9_play_total 100 5 500 (1/2) (fun _ => 0) (by norm_num)

end Martingale
